import Mathlib

/-!
Verification of the bw-datatable core (packages/core/src/core): the
sort/filter pipeline and state handlers of `BWDataTable.js`, the
`EventBus` of `StateManager.js`, the `PluginSystem`, and the
virtual-scroll viewport computation described by the package
documentation.

Conventions of the embedding:
* JavaScript cell values are modelled by `JSVal` (null, undefined,
  integer numbers, strings, booleans).  JavaScript numbers are modelled
  as integers; floating point is out of scope.
* JavaScript strings are manipulated as `List Char` so that every
  operation is a structurally recursive function the kernel can
  evaluate.  JS string comparison is by UTF-16 code unit; `Char.toNat`
  (code point) agrees with it on the Basic Multilingual Plane, which is
  the scope of this model.
* `Array.prototype.sort` with a comparator is modelled by a stable
  insertion sort (`stableSort`); ECMAScript requires sort to be stable,
  and any two stable sorts agree when the comparator is a total
  preorder on the values being compared.
-/

namespace BWDT

/-- Model of a JavaScript primitive value as stored in a table cell. -/
inductive JSVal where
  | null
  | undefined
  | num (n : Int)
  | str (s : String)
  | bool (b : Bool)
deriving DecidableEq, Repr

/-- The JS test `v == null`, which is true exactly for null and undefined.
This is the check the sort comparator and the filter code use. -/
def isNullish : JSVal → Bool
  | .null => true
  | .undefined => true
  | _ => false

/-- Decimal digits of a natural number, fuel-driven so it is structurally
recursive (fuel `n+1` always suffices). -/
def natCharsAux : Nat → Nat → List Char → List Char
  | 0, _, acc => acc
  | fuel + 1, n, acc =>
    let d := Char.ofNat (48 + n % 10)
    if n < 10 then d :: acc else natCharsAux fuel (n / 10) (d :: acc)

/-- Decimal representation of a natural number as characters. -/
def natChars (n : Nat) : List Char :=
  natCharsAux (n + 1) n []

/-- Decimal representation of an integer as characters, mirroring the JS
string conversion of an integral number. -/
def intChars (n : Int) : List Char :=
  if n < 0 then '-' :: natChars n.natAbs else natChars n.toNat

/-- The JS `String(v)` conversion, as characters. -/
def jsChars : JSVal → List Char
  | .null => "null".data
  | .undefined => "undefined".data
  | .num n => intChars n
  | .str s => s.data
  | .bool true => "true".data
  | .bool false => "false".data

/-- The JS `.toLowerCase()` on a character list (ASCII-faithful model). -/
def lowerChars (l : List Char) : List Char :=
  l.map Char.toLower

/-- The JS `hay.includes(needle)` substring test. -/
def strIncludes (needle hay : List Char) : Bool :=
  match hay with
  | [] => needle.isEmpty
  | _ :: t => needle.isPrefixOf hay || strIncludes needle t

/-- JS truthiness of a value, used by `if (globalFilter)`. -/
def jsTruthy : JSVal → Bool
  | .null => false
  | .undefined => false
  | .num n => n ≠ 0
  | .str s => s ≠ ""
  | .bool b => b

/-- The JS relational comparison `a < b` restricted to operands of the
same primitive type: numeric order on numbers and code-unit
lexicographic order on strings.  The sort comparator only reaches this
operation after filtering out null/undefined, and mixed-type numeric
coercion is outside the scope of this model. -/
def jsLt : JSVal → JSVal → Bool
  | .num a, .num b => a < b
  | .str a, .str b => lexLt a.data b.data
  | .bool a, .bool b => !a && b
  | _, _ => false
where
  /-- Code-unit lexicographic order on character lists. -/
  lexLt : List Char → List Char → Bool
    | [], [] => false
    | [], _ :: _ => true
    | _ :: _, [] => false
    | a :: as, b :: bs =>
      if a.toNat < b.toNat then true
      else if b.toNat < a.toNat then false
      else lexLt as bs

-- ===========================================================================
-- ViewportEngine (claim C1)
-- ===========================================================================

/-- A half-open row range over view space.  The source calls the upper
bound `end`, which is a Lean keyword, so it is named `stop` here. -/
structure RangeWindow where
  start : Nat
  stop : Nat
deriving DecidableEq, Repr

/-- Modelled from the spec: the virtual-scroll `ViewportEngine`
implementation is not among the sources (only the package README and
the type declarations mention virtual scrolling), so `computeRange`
follows the spec text: visibleStart is the floor of scrollTop over
rowHeight, visibleCount is the ceiling of viewportHeight over rowHeight,
the buffer equals visibleCount, start is visibleStart minus the buffer
clamped at zero (natural subtraction), and stop is visibleStart plus
visibleCount plus the buffer clamped at viewLength.  All quantities are
non-negative pixel/row counts, modelled as naturals; rowHeight is
assumed positive (fixed positive row height is an explicit precondition
of the engine). -/
def computeRange (scrollTop viewportHeight rowHeight viewLength : Nat) : RangeWindow :=
  let visibleStart := scrollTop / rowHeight
  let visibleCount := (viewportHeight + rowHeight - 1) / rowHeight
  let buffer := visibleCount
  { start := visibleStart - buffer
    stop := min viewLength (visibleStart + visibleCount + buffer) }

-- ===========================================================================
-- Sorting (BWDataTable.sort, claims C2, C3, C4)
-- ===========================================================================

/-- Insertion of an element into a comparator-sorted list, placing it
before the first element it compares less-or-equal to.  Elements that
compare equal keep the order in which the sort encountered them, which
is the stability guarantee of `Array.prototype.sort`. -/
def insertCmp {R : Type} (cmp : R → R → Int) (a : R) : List R → List R
  | [] => [a]
  | b :: bs => if cmp a b ≤ 0 then a :: b :: bs else b :: insertCmp cmp a bs

/-- Stable sort by a JS-style comparator (negative means the first
argument sorts earlier).  This models `Array.prototype.sort(cmp)`, which
ECMAScript requires to be stable: on comparators that induce a total
preorder the result is the unique stable ordering, so the choice of a
stable sorting algorithm is immaterial. -/
def stableSort {R : Type} (cmp : R → R → Int) : List R → List R
  | [] => []
  | a :: as => insertCmp cmp a (stableSort cmp as)

/-- A sort direction, per the `dir` argument of `BWDataTable.sort`. -/
inductive Dir where
  | asc
  | desc
deriving DecidableEq, Repr

/-- The comparator of `BWDataTable.sort` specialised to a column whose
non-null values live in one linearly ordered scalar type (the generic
JS comparison `aVal < bVal` presupposes mutually comparable values):
null/undefined (here `none`) sorts after everything regardless of
direction, and the direction flips the sign of the comparison of two
non-null values only. -/
def cellCmp {V : Type} [LinearOrder V] (dir : Dir) (a b : Option V) : Int :=
  match a, b with
  | none, none => 0
  | none, some _ => 1
  | some _, none => -1
  | some x, some y =>
    let c : Int := if x < y then -1 else if y < x then 1 else 0
    match dir with
    | .asc => c
    | .desc => -c

/-- Sorting the data rows by one column: `f` extracts the cell value of
the sorted column from a row (the embedding of `#getCellValue` for that
column). -/
def sortByColumn {R V : Type} [LinearOrder V] (dir : Dir) (f : R → Option V)
    (rows : List R) : List R :=
  stableSort (fun a b => cellCmp dir (f a) (f b)) rows

/-- A minimal row shape for concrete sorting scenarios: a row identity
plus the cell value of the column being sorted. -/
structure VRow where
  rid : Nat
  val : Option Int
deriving DecidableEq, Repr

-- ===========================================================================
-- The declared-type comparator question (claim C3)
-- ===========================================================================

/-- Declared column types, per the `type` option of a column definition. -/
inductive ColType where
  | str
  | num
  | bool
  | date
deriving DecidableEq, Repr

/-- The comparator of `BWDataTable.sort` on raw JS values, translated
from the source: the null/undefined checks come first (direction
invariant), then a single generic relational comparison `aVal < bVal` /
`aVal > bVal` whose sign is flipped for descending order.  No comparator
is selected by column type. -/
def jsSortComparator (dir : Dir) (a b : JSVal) : Int :=
  if isNullish a && isNullish b then 0
  else if isNullish a then 1
  else if isNullish b then -1
  else
    let c : Int := if jsLt a b then -1 else if jsLt b a then 1 else 0
    match dir with
    | .asc => c
    | .desc => -c

/-- Split a character list on slashes. -/
def splitSlash : List Char → List (List Char)
  | [] => [[]]
  | c :: t =>
    if c = '/' then [] :: splitSlash t
    else
      match splitSlash t with
      | [] => [[c]]
      | g :: gs => (c :: g) :: gs

/-- Parse a non-empty all-digit character list as a natural number. -/
def parseNatChars (l : List Char) : Option Nat :=
  match l with
  | [] => none
  | _ =>
    l.foldl
      (fun acc c =>
        match acc with
        | none => none
        | some n =>
          if 48 ≤ c.toNat ∧ c.toNat ≤ 57 then some (n * 10 + (c.toNat - 48))
          else none)
      (some 0)

/-- Modelled from the spec: the `date` comparator is to parse both sides
as dates and compare epoch milliseconds.  Dates here are `M/D/YYYY`
strings (the slash format `Date.parse` accepts), and the key
`y * 372 + (m - 1) * 31 + (d - 1)` is order-isomorphic to the epoch
timestamp on valid dates, which is all a comparator observes. -/
def dateKey (l : List Char) : Option Int :=
  match splitSlash l with
  | [ms, ds, ys] =>
    match parseNatChars ms, parseNatChars ds, parseNatChars ys with
    | some m, some d, some y =>
      if 1 ≤ m ∧ m ≤ 12 ∧ 1 ≤ d ∧ d ≤ 31 then
        some ((y * 372 + (m - 1) * 31 + (d - 1) : Nat) : Int)
      else none
    | _, _, _ => none
  | _ => none

/-- Modelled from the spec: locale-aware string comparison, as a simple
collation with a case-insensitive primary level and a code-unit
tiebreak (so for instance the lowercase a sorts before the uppercase B,
unlike the code-unit order). -/
def localeCmp (a b : List Char) : Int :=
  if lowerChars a = lowerChars b then
    if a = b then 0 else if jsLt.lexLt a b then -1 else 1
  else if jsLt.lexLt (lowerChars a) (lowerChars b) then -1 else 1

/-- Numeric reading of a cell for the spec's `number` comparator. -/
def jsNumOf : JSVal → Int
  | .num n => n
  | .bool true => 1
  | _ => 0

/-- Modelled from the spec: the comparator selected by the sorted
column's declared type — numeric subtraction for `number`, epoch
comparison of parsed dates for `date`, locale-aware string comparison
for the default/`string` case — with the direction-invariant nulls-last
rule and the sign flipped for descending order. -/
def specComparator (t : ColType) (dir : Dir) (a b : JSVal) : Int :=
  if isNullish a && isNullish b then 0
  else if isNullish a then 1
  else if isNullish b then -1
  else
    let c : Int :=
      match t with
      | .num => jsNumOf a - jsNumOf b
      | .date =>
        match dateKey (jsChars a), dateKey (jsChars b) with
        | some x, some y => x - y
        | _, _ => 0
      | _ => localeCmp (jsChars a) (jsChars b)
    match dir with
    | .asc => c
    | .desc => -c

/-- A row carrying the raw JS cell value of the sorted column. -/
structure JRow where
  rid : Nat
  cell : JSVal
deriving DecidableEq, Repr

/-- Cells a `number` column may hold: a numeric value or null/undefined. -/
def isNumOrNullish : JSVal → Bool
  | .num _ => true
  | v => isNullish v

-- ===========================================================================
-- Filtering (BWDataTable.filter, claim C5)
-- ===========================================================================

/-- A column definition: id, optional source field, declared type and
editability flag.  Function-valued column options (valueGetter, render,
validator) are outside the scope of this data-level model. -/
structure Column where
  id : String
  field : Option String := none
  type : ColType := .str
  editable : Option Bool := none
deriving DecidableEq, Repr

/-- A data row: a record from field names to JS values. -/
abbrev Row := List (String × JSVal)

/-- JS property access `row[key]`: undefined when absent. -/
def lookupField (row : Row) (key : String) : JSVal :=
  match row.lookup key with
  | some v => v
  | none => .undefined

/-- The `#getCellValue` helper: the column's `field` if declared, else
the column id, looked up on the row.  Dot-notation nested paths are
modelled as flat keys (no claim exercises nesting), and custom
valueGetter functions are outside this data-level model. -/
def getCellValue (row : Row) (col : Column) : JSVal :=
  match col.field with
  | some f => lookupField row f
  | none => lookupField row col.id

/-- One entry of the sort state (`{ column, dir }`). -/
structure SortSpec where
  column : String
  dir : Dir
deriving DecidableEq, Repr

/-- The slice of the StateManager state that the filter pipeline reads
and writes: raw data, columns, the derived view (`rows`), the per-column
filters object, the global filter term and the sort state. -/
structure TableState where
  data : List Row
  columns : List Column
  rows : List Row
  filters : List (String × JSVal)
  globalFilter : JSVal
  sort : List SortSpec
deriving DecidableEq, Repr

/-- The per-cell filter test
`String(getCellValue(row, col)).toLowerCase().includes(term)` for an
already-lowercased term. -/
def cellMatches (term : List Char) (row : Row) (col : Column) : Bool :=
  strIncludes term (lowerChars (jsChars (getCellValue row col)))

/-- Whether a row survives the global filter: vacuously true when the
stored term is falsy (the code skips the global pass entirely), else
some column's stringified cell contains the lowercased term. -/
def matchesGlobal (cols : List Column) (gf : JSVal) (row : Row) : Bool :=
  !(jsTruthy gf) || cols.any (fun c => cellMatches (lowerChars (jsChars gf)) row c)

/-- Whether a row survives every active per-column filter.  Entries
whose column id matches no column are skipped (`continue` in the
source), not failed. -/
def matchesColumnFilters (cols : List Column) (filters : List (String × JSVal))
    (row : Row) : Bool :=
  filters.all (fun cf =>
    match cols.find? (fun c => c.id == cf.1) with
    | none => true
    | some col => cellMatches (lowerChars (jsChars cf.2)) row col)

/-- JS object update `filters[colId] = value` on an association list:
replace in place if the key exists, else append. -/
def setFilterKey : List (String × JSVal) → String → JSVal → List (String × JSVal)
  | [], k, v => [(k, v)]
  | (k2, v2) :: t, k, v =>
    if k2 = k then (k, v) :: t else (k2, v2) :: setFilterKey t k v

/-- JS object delete `delete filters[colId]` on an association list. -/
def delFilterKey (fs : List (String × JSVal)) (k : String) : List (String × JSVal) :=
  fs.filter (fun kv => !(kv.1 == k))

/-- The sequential per-column filtering loop of `filter()`: for each
stored entry whose column exists, retain the rows whose stringified cell
contains the lowercased filter value. -/
def applyColumnFilters (cols : List Column) :
    List (String × JSVal) → List Row → List Row
  | [], rows => rows
  | cf :: rest, rows =>
    let rows2 :=
      match cols.find? (fun c => c.id == cf.1) with
      | none => rows
      | some col =>
        rows.filter (fun row => cellMatches (lowerChars (jsChars cf.2)) row col)
    applyColumnFilters cols rest rows2

/-- The re-application of an active sort at the end of `filter()`, using
the same inline comparator as `sort()`.  A sort naming an unknown
column leaves the order unchanged. -/
def applySortState (s : TableState) (rows : List Row) : List Row :=
  match s.sort with
  | [] => rows
  | si :: _ =>
    match s.columns.find? (fun c => c.id == si.column) with
    | none => rows
    | some col =>
      stableSort
        (fun a b => jsSortComparator si.dir (getCellValue a col) (getCellValue b col))
        rows

/-- The `filter(columnId, value)` entry point: update the global term
(sentinel column id `global`) or the per-column filter map (empty
string, null and undefined delete the entry), then rebuild `rows` from
`data` by applying the global filter, every column filter, and the
active sort. -/
def filterCall (s : TableState) (columnId : String) (value : JSVal) : TableState :=
  let filters :=
    if columnId = "global" then s.filters
    else if value = .str "" ∨ value = .null ∨ value = .undefined then
      delFilterKey s.filters columnId
    else setFilterKey s.filters columnId value
  let globalFilter := if columnId = "global" then value else s.globalFilter
  let rows1 :=
    if jsTruthy globalFilter then
      s.data.filter (fun row =>
        s.columns.any (fun c => cellMatches (lowerChars (jsChars globalFilter)) row c))
    else s.data
  let rows2 := applyColumnFilters s.columns filters rows1
  let rows3 := applySortState s rows2
  { s with filters := filters, globalFilter := globalFilter, rows := rows3 }

/-- A sequence of `filter` calls. -/
def runFilterCalls (s : TableState) (calls : List (String × JSVal)) : TableState :=
  calls.foldl (fun st c => filterCall st c.1 c.2) s

/-- Columns of the worked filtering scenario (spec example 2). -/
def demoCols : List Column :=
  [{ id := "n" }]

/-- Rows of the worked filtering scenario. -/
def demoRows : List Row :=
  [[("id", .num 1), ("n", .num 3)],
   [("id", .num 2), ("n", .num 1)],
   [("id", .num 3), ("n", .num 2)]]

/-- Initial state of the worked filtering scenario. -/
def demoState : TableState :=
  { data := demoRows, columns := demoCols, rows := demoRows,
    filters := [], globalFilter := .str "", sort := [] }

-- ===========================================================================
-- Selection (BWDataTable.#handleSelection / select, claim C6)
-- ===========================================================================

/-- JS `Set.add`: keep insertion order, ignore duplicates. -/
def jsSetAdd (l : List String) (x : String) : List String :=
  if x ∈ l then l else l ++ [x]

/-- JS `new Set(ids)`: deduplicate preserving first occurrences. -/
def jsSetOfList (xs : List String) : List String :=
  xs.foldl jsSetAdd []

/-- The selection-relevant state: the selected id set (insertion-ordered
and duplicate-free, as a JS `Set`) and the `selectionMode` string. -/
structure SelState where
  selected : List String
  selectionMode : String
deriving DecidableEq, Repr

/-- The `#handleSelection` click handler: under `single`, clicking a
selected row clears the selection and clicking anything else makes it
the sole selection; under `multi` the click toggles the row; any other
mode leaves the set alone.  (`Set.delete` on a duplicate-free set equals
removing every occurrence.) -/
def handleSelection (st : SelState) (rowId : String) : SelState :=
  if st.selectionMode = "single" then
    if rowId ∈ st.selected then { st with selected := [] }
    else { st with selected := [rowId] }
  else if st.selectionMode = "multi" then
    if rowId ∈ st.selected then
      { st with selected := st.selected.filter (fun x => !(x == rowId)) }
    else { st with selected := jsSetAdd st.selected rowId }
  else st

/-- The selection-affecting operations of the public interface. -/
inductive SelOp where
  | select (ids : List String)
  | clearSelection
  | rowClick (rowId : String)
  | selectAllVisible (visibleIds : List String)
  | setData

/-- Effect of each public operation on the selection, from the source:
`select(ids)` stores `new Set(ids)` without consulting the mode,
`clearSelection` and `setData` store an empty set, a row click goes
through `#handleSelection`, and select-all stores the visible row ids. -/
def applySelOp (st : SelState) (op : SelOp) : SelState :=
  match op with
  | .select ids => { st with selected := jsSetOfList ids }
  | .clearSelection => { st with selected := [] }
  | .rowClick rid => handleSelection st rid
  | .selectAllVisible ids => { st with selected := jsSetOfList ids }
  | .setData => { st with selected := [] }

-- ===========================================================================
-- Editing (BWDataTable.#handleEditStart / #saveEdit / startEdit, claim C7)
-- ===========================================================================

/-- The in-progress edit: the cell coordinates, the value captured when
the edit began, and the live content of the DOM input element. -/
structure ActiveEdit where
  rowId : String
  columnId : String
  originalValue : JSVal
  inputValue : String
deriving DecidableEq, Repr

/-- The editing-relevant state: the rows (the source mutates the same
row objects through both `state.data` and `state.rows`, modelled as one
list), the columns, and the `editingCell`. -/
structure EditState where
  rows : List Row
  columns : List Column
  editing : Option ActiveEdit
deriving DecidableEq, Repr

/-- The `#getRowId` helper in its default configuration: the stringified
`id` field of the row.  (Custom id fields/functions and generated
fallback ids are outside this model.) -/
def getRowId (row : Row) : String :=
  String.mk (jsChars (lookupField row "id"))

/-- The `#isColumnEditable` check in the globally-editable
configuration: an explicit column flag wins, otherwise editable. -/
def isColumnEditable (col : Column) : Bool :=
  match col.editable with
  | some b => b
  | none => true

/-- Type coercion applied by `#saveEdit` when reading the input: number
inputs parse (empty string becomes null), checkboxes are booleans,
everything else is the raw string.  Non-numeric text in a number input
(NaN in JS) is modelled as null. -/
def coerceInput (t : ColType) (raw : String) : JSVal :=
  match t with
  | .num =>
    if raw = "" then .null
    else
      match parseNatChars raw.data with
      | some n => .num (n : Int)
      | none => .null
  | .bool => .bool (raw = "true")
  | _ => .str raw

/-- JS property assignment `row[key] = v`. -/
def setField : Row → String → JSVal → Row
  | [], k, v => [(k, v)]
  | (k2, v2) :: t, k, v =>
    if k2 = k then (k, v) :: t else (k2, v2) :: setField t k v

/-- Replace the first row with the given id (the source `find`s the row
object and mutates it in place). -/
def replaceFirst (rows : List Row) (rowId : String) (f : Row → Row) : List Row :=
  match rows with
  | [] => []
  | r :: t =>
    if getRowId r = rowId then f r :: t else r :: replaceFirst t rowId f

/-- Find a row by its id. -/
def findRowById (rows : List Row) (rowId : String) : Option Row :=
  rows.find? (fun r => getRowId r == rowId)

/-- The `#updateCellValue` write-through: locate the column, derive the
target field, and update the matching row in place.  Unknown columns or
missing rows are no-ops. -/
def updateCellValue (st : EditState) (rowId columnId : String) (v : JSVal) :
    EditState :=
  match st.columns.find? (fun c => c.id == columnId) with
  | none => st
  | some col =>
    let fieldName := col.field.getD col.id
    let rows2 := replaceFirst st.rows rowId (fun r => setField r fieldName v)
    { st with rows := rows2 }

/-- The `#saveEdit` commit: read and coerce the live input value, write
it through to the row when it changed, and leave the editing state.
(The optional column validator and the cancellable `edit:before` event
are not exercised by the claims and are not modelled.) -/
def saveEdit (st : EditState) : EditState :=
  match st.editing with
  | none => st
  | some e =>
    match st.columns.find? (fun c => c.id == e.columnId) with
    | none => st
    | some col =>
      let newValue := coerceInput col.type e.inputValue
      let st2 :=
        if newValue ≠ e.originalValue then
          updateCellValue st e.rowId e.columnId newValue
        else st
      { st2 with editing := none }

/-- Entering the editing state on a cell: capture the current value and
initialise the input with its rendered text (null/undefined render as an
empty input).  The clicked row must exist in the rendered rows. -/
def startEditingCell (st : EditState) (rowId columnId : String) (col : Column) :
    EditState :=
  match findRowById st.rows rowId with
  | none => st
  | some row =>
    let value := getCellValue row col
    let e : ActiveEdit :=
      { rowId := rowId, columnId := columnId, originalValue := value,
        inputValue :=
          if isNullish value then "" else String.mk (jsChars value) }
    { st with editing := some e }

/-- The `#handleEditStart` click path: ignore non-editable targets and
re-clicks of the cell already being edited; commit any other in-progress
edit through `#saveEdit` before starting the new one. -/
def handleEditStart (st : EditState) (rowId columnId : String) : EditState :=
  match st.columns.find? (fun c => c.id == columnId) with
  | none => st
  | some col =>
    if isColumnEditable col then
      match st.editing with
      | some e =>
        if e.rowId = rowId ∧ e.columnId = columnId then st
        else startEditingCell (saveEdit st) rowId columnId col
      | none => startEditingCell st rowId columnId col
    else st

/-- The programmatic `startEdit(rowId, columnId)` of the public API: it
checks editability and that the target exists, then overwrites the
editing state directly — unlike the click path it does not commit an
in-progress edit first. -/
def startEdit (st : EditState) (rowId columnId : String) : EditState :=
  match st.columns.find? (fun c => c.id == columnId) with
  | none => st
  | some col =>
    if isColumnEditable col then startEditingCell st rowId columnId col
    else st

/-- Columns of the concrete editing scenario. -/
def editCols : List Column :=
  [{ id := "v" }]

/-- Rows of the concrete editing scenario. -/
def editRows : List Row :=
  [[("id", .str "1"), ("v", .str "old")],
   [("id", .str "2"), ("v", .str "x")]]

/-- A state in the middle of editing cell (row 1, column v), with
pending input `NEW` not yet committed. -/
def editSt : EditState :=
  { rows := editRows, columns := editCols,
    editing := some
      { rowId := "1", columnId := "v", originalValue := .str "old",
        inputValue := "NEW" } }

-- ===========================================================================
-- EventBus (StateManager.js, claims C8 and C10)
-- ===========================================================================

/-- What an interceptor's return value means to `emit`: `false` cancels,
`undefined` passes the payload through, anything else replaces it. -/
inductive IRes (D : Type) where
  | cancel
  | pass
  | replace (d : D)

/-- The observable outcome of one `emit` call: the return value (`none`
models returning the sentinel `false`) and the listener invocations in
order, each with the payload it received. -/
structure EmitOutcome (Λ D : Type) where
  result : Option D
  calls : List (Λ × D)
deriving DecidableEq, Repr

/-- The interceptor loop of `emit`, viewed on its own: threads the
payload through the interceptors in registration order, stopping at the
first cancel. -/
def runInterceptors {D : Type} : List (D → IRes D) → D → Option D
  | [], d => some d
  | f :: fs, d =>
    match f d with
    | .cancel => none
    | .pass => runInterceptors fs d
    | .replace d2 => runInterceptors fs d2

/-- `EventBus.emit`, translated from the source loop: run the
interceptors in registration order over the payload — returning the
cancel sentinel immediately if one cancels — then invoke every listener
in registration order with the final payload and return it.  Listeners
are modelled by identifiers; their invocations are recorded as the call
trace. -/
def emit {Λ D : Type} : List (D → IRes D) → List Λ → D → EmitOutcome Λ D
  | [], ls, d => ⟨some d, ls.map (fun l => (l, d))⟩
  | f :: fs, ls, d =>
    match f d with
    | .cancel => ⟨none, []⟩
    | .pass => emit fs ls d
    | .replace d2 => emit fs ls d2

/-- `EventBus.on`: the listeners of an event are a JS `Set`, so adding
keeps insertion order and ignores duplicates. -/
def busOn {Λ : Type} [DecidableEq Λ] (ls : List Λ) (cb : Λ) : List Λ :=
  if cb ∈ ls then ls else ls ++ [cb]

/-- `EventBus.off`: `Set.delete` of the callback. -/
def busOff {Λ : Type} [DecidableEq Λ] (ls : List Λ) (cb : Λ) : List Λ :=
  ls.erase cb

/-- Interceptors of the worked emit scenario: one replaces the payload
with its successor, one passes. -/
def demoIcs : List (Nat → IRes Nat) :=
  [fun d => .replace (d + 1), fun _ => .pass]

-- ===========================================================================
-- PluginSystem (PluginSystem.js, claim C9)
-- ===========================================================================

/-- A plugin definition: name, optional init function (absence models a
non-function `init`), and dependency names.  `A` is the capability/API
object type, `I` the instance type; init may throw, modelled by
`Except`. -/
structure PluginDef (A I : Type) where
  name : String
  init : Option (A → Except String I)
  dependencies : List String := []

/-- The plugin registry: name to instance, in registration order. -/
abbrev Registry (I : Type) := List (String × I)

/-- `PluginSystem.register`, translated from the source: missing name,
missing init and unmet dependencies throw; a duplicate name warns and
returns the existing instance without re-initialising; otherwise init
runs — with no try/catch around it, so anything it throws propagates to
the caller — and on success the plugin is stored. -/
def register {A I : Type} (api : A) (reg : Registry I) (p : PluginDef A I) :
    Except String (Registry I × I) :=
  if p.name = "" then .error "Plugin must have a name"
  else
    match reg.lookup p.name with
    | some inst => .ok (reg, inst)
    | none =>
      match p.init with
      | none => .error "Plugin must have init function"
      | some initF =>
        match p.dependencies.find? (fun dep => (reg.lookup dep).isNone) with
        | some _ => .error "Plugin requires missing dependency"
        | none =>
          match initF api with
          | .error e => .error e
          | .ok inst => .ok (reg ++ [(p.name, inst)], inst)

/-- A plugin whose init function throws. -/
def boomPlugin : PluginDef Unit Unit :=
  { name := "boom", init := some (fun _ => .error "boom"), dependencies := [] }

-- ===========================================================================
-- Theorems
-- ===========================================================================

theorem mem_insertCmp {R : Type} (cmp : R → R → Int) (a x : R) (l : List R) :
    x ∈ insertCmp cmp a l ↔ x = a ∨ x ∈ l := by
  induction l with
  | nil => simp [insertCmp]
  | cons b bs ih =>
    by_cases h : cmp a b ≤ 0
    · simp [insertCmp, h]
    · simp [insertCmp, h, ih]
      tauto

theorem insertCmp_perm {R : Type} (cmp : R → R → Int) (a : R) (l : List R) :
    (insertCmp cmp a l).Perm (a :: l) := by
  induction l with
  | nil => simp [insertCmp]
  | cons b bs ih =>
    by_cases h : cmp a b ≤ 0
    · simp [insertCmp, h]
    · simp only [insertCmp, h, if_false]
      exact (ih.cons b).trans (List.Perm.swap a b bs)

theorem stableSort_perm {R : Type} (cmp : R → R → Int) (l : List R) :
    (stableSort cmp l).Perm l := by
  induction l with
  | nil => simp [stableSort]
  | cons a as ih =>
    exact (insertCmp_perm cmp a (stableSort cmp as)).trans (ih.cons a)

theorem mem_stableSort {R : Type} (cmp : R → R → Int) (x : R) (l : List R) :
    x ∈ stableSort cmp l ↔ x ∈ l :=
  (stableSort_perm cmp l).mem_iff

theorem insertCmp_pairwise {R : Type} (cmp : R → R → Int)
    (htot : ∀ a b : R, cmp a b ≤ 0 ∨ cmp b a ≤ 0)
    (htrans : ∀ a b c : R, cmp a b ≤ 0 → cmp b c ≤ 0 → cmp a c ≤ 0)
    (a : R) (l : List R)
    (hl : l.Pairwise (fun x y => cmp x y ≤ 0)) :
    (insertCmp cmp a l).Pairwise (fun x y => cmp x y ≤ 0) := by
  induction l with
  | nil => simp [insertCmp]
  | cons b bs ih =>
    rcases List.pairwise_cons.mp hl with ⟨hb, hbs⟩
    by_cases h : cmp a b ≤ 0
    · simp only [insertCmp, h, if_true]
      refine List.pairwise_cons.mpr ⟨?_, hl⟩
      intro x hx
      rcases List.mem_cons.mp hx with rfl | hx
      · exact h
      · exact htrans a b x h (hb x hx)
    · simp only [insertCmp, h, if_false]
      refine List.pairwise_cons.mpr ⟨?_, ih hbs⟩
      intro x hx
      rcases (mem_insertCmp cmp a x bs).mp hx with h1 | hx
      · subst h1
        exact (htot _ b).resolve_left h
      · exact hb x hx

theorem stableSort_pairwise {R : Type} (cmp : R → R → Int)
    (htot : ∀ a b : R, cmp a b ≤ 0 ∨ cmp b a ≤ 0)
    (htrans : ∀ a b c : R, cmp a b ≤ 0 → cmp b c ≤ 0 → cmp a c ≤ 0)
    (l : List R) :
    (stableSort cmp l).Pairwise (fun x y => cmp x y ≤ 0) := by
  induction l with
  | nil => simp [stableSort]
  | cons a as ih => exact insertCmp_pairwise cmp htot htrans a _ ih

/-- Characterisation of when the sort comparator lets `a` go before `b`:
anything goes before null, null never goes before a value, and two
values compare by the column order, flipped for descending. -/
theorem cellCmp_le_zero {V : Type} [LinearOrder V] (dir : Dir) (a b : Option V) :
    cellCmp dir a b ≤ 0 ↔
      (match a, b, dir with
       | _, none, _ => True
       | none, some _, _ => False
       | some x, some y, .asc => x ≤ y
       | some x, some y, .desc => y ≤ x) := by
  rcases a with _ | x <;> rcases b with _ | y <;> rcases dir <;>
      simp only [cellCmp] <;> try simp
  · split_ifs with h1 h2
    · simp [le_of_lt h1]
    · simp [not_le.mpr h2]
    · simp [le_of_not_lt h2]
  · split_ifs with h1 h2
    · simp [not_le.mpr h1]
    · simp [le_of_lt h2]
    · simp [le_of_not_lt h1]

theorem cellCmp_total {V : Type} [LinearOrder V] (dir : Dir) (a b : Option V) :
    cellCmp dir a b ≤ 0 ∨ cellCmp dir b a ≤ 0 := by
  rw [cellCmp_le_zero, cellCmp_le_zero]
  rcases a with _ | x <;> rcases b with _ | y <;> rcases dir <;> simp [le_total]

theorem cellCmp_trans {V : Type} [LinearOrder V] (dir : Dir) (a b c : Option V)
    (hab : cellCmp dir a b ≤ 0) (hbc : cellCmp dir b c ≤ 0) :
    cellCmp dir a c ≤ 0 := by
  rw [cellCmp_le_zero] at *
  rcases a with _ | x <;> rcases b with _ | y <;> rcases c with _ | z <;>
      rcases dir <;> simp_all
  · exact le_trans hab hbc
  · exact le_trans hbc hab

theorem sortByColumn_pairwise {R V : Type} [LinearOrder V] (dir : Dir)
    (f : R → Option V) (rows : List R) :
    (sortByColumn dir f rows).Pairwise
      (fun a b => cellCmp dir (f a) (f b) ≤ 0) :=
  stableSort_pairwise _
    (fun a b => cellCmp_total dir (f a) (f b))
    (fun a b c => cellCmp_trans dir (f a) (f b) (f c))
    rows

/-- C2: for every data array and every sortable column, after
`sort(columnId, dir)` every row whose cell value is null or undefined
(`f r = none`) appears after all rows with non-null values in that
column, for both directions: if the row at position `i` of the sorted
output has a null cell, every later position `j` also has a null cell. -/
theorem sort_nulls_last {R V : Type} [LinearOrder V] (dir : Dir)
    (f : R → Option V) (rows : List R) (i j : Nat)
    (hi : i < (sortByColumn dir f rows).length)
    (hj : j < (sortByColumn dir f rows).length)
    (hij : i < j)
    (hnull : f ((sortByColumn dir f rows).get ⟨i, hi⟩) = none) :
    f ((sortByColumn dir f rows).get ⟨j, hj⟩) = none := by
  have hp := List.pairwise_iff_get.mp (sortByColumn_pairwise dir f rows)
  have hle := hp ⟨i, hi⟩ ⟨j, hj⟩ hij
  rw [cellCmp_le_zero, hnull] at hle
  rcases hfj : f ((sortByColumn dir f rows).get ⟨j, hj⟩) with _ | v
  · rfl
  · rw [hfj] at hle
    exact absurd hle (by rcases dir <;> simp)

theorem sort_nulls_last_witness :
    (1 < 3) ∧
      VRow.val ((sortByColumn .asc VRow.val
        [⟨1, none⟩, ⟨2, some 3⟩, ⟨3, none⟩]).get ⟨2, by decide⟩) = none :=
  ⟨by decide,
   sort_nulls_last .asc VRow.val [⟨1, none⟩, ⟨2, some 3⟩, ⟨3, none⟩] 1 2
     (by decide) (by decide) (by decide) (by decide)⟩

/-- Characterisation of when the sort comparator puts `a` strictly
before `b`. -/
theorem cellCmp_lt_zero {V : Type} [LinearOrder V] (dir : Dir) (a b : Option V) :
    cellCmp dir a b < 0 ↔
      (match a, b, dir with
       | some _, none, _ => True
       | some x, some y, .asc => x < y
       | some x, some y, .desc => y < x
       | _, _, _ => False) := by
  rcases a with _ | x <;> rcases b with _ | y <;> rcases dir <;>
      simp only [cellCmp] <;> try simp
  · rcases lt_trichotomy x y with h | h | h
    · simp [h]
    · subst h
      simp
    · simp [h, lt_asymm h]
  · rcases lt_trichotomy x y with h | h | h
    · simp [h, lt_asymm h]
    · subst h
      simp
    · simp [h, lt_asymm h]

/-- On rows whose values in the sorted column are non-null and pairwise
distinct, the sorted-then-filtered output is strictly sorted. -/
theorem sortByColumn_filter_pairwise_strict {R V : Type} [LinearOrder V]
    (dir : Dir) (f : R → Option V) (rows : List R)
    (hnd : rows.Pairwise (fun a b => (f a).isSome → (f b).isSome → f a ≠ f b)) :
    ((sortByColumn dir f rows).filter (fun r => (f r).isSome)).Pairwise
      (fun a b => cellCmp dir (f a) (f b) < 0) := by
  have hsymm : ∀ {x y : R},
      ((f x).isSome → (f y).isSome → f x ≠ f y) →
      ((f y).isSome → (f x).isSome → f y ≠ f x) :=
    fun h hy hx => (h hx hy).symm
  have hndS :
      (sortByColumn dir f rows).Pairwise
        (fun a b => (f a).isSome → (f b).isSome → f a ≠ f b) :=
    (List.Perm.pairwise_iff hsymm (stableSort_perm _ rows)).mpr hnd
  have hsorted :=
    (sortByColumn_pairwise dir f rows).filter (fun r => (f r).isSome)
  have hand := hsorted.and (hndS.filter (fun r => (f r).isSome))
  refine List.Pairwise.imp_of_mem ?_ hand
  intro a b ha hb hab
  obtain ⟨hle, hne⟩ := hab
  have hpa : (f a).isSome := by simpa using (List.mem_filter.mp ha).2
  have hpb : (f b).isSome := by simpa using (List.mem_filter.mp hb).2
  obtain ⟨x, hx⟩ := Option.isSome_iff_exists.mp hpa
  obtain ⟨y, hy⟩ := Option.isSome_iff_exists.mp hpb
  have hxy : x ≠ y := by
    intro h
    exact hne hpa hpb (by rw [hx, hy, h])
  rw [cellCmp_le_zero, hx, hy] at hle
  rw [cellCmp_lt_zero, hx, hy]
  rcases dir <;> simp only [] at hle ⊢
  · exact lt_of_le_of_ne hle hxy
  · exact lt_of_le_of_ne hle (Ne.symm hxy)

/-- C4 counterexample: two distinct rows carrying the same non-null cell
value.  The stable sort leaves them in original order for both
directions, so the descending order is not the reverse of the ascending
order. -/
theorem sort_reverse_fails_on_ties :
    ¬ ((sortByColumn .asc VRow.val [⟨1, some 5⟩, ⟨2, some 5⟩]).filter
          (fun r => (VRow.val r).isSome)
        = ((sortByColumn .desc VRow.val [⟨1, some 5⟩, ⟨2, some 5⟩]).filter
          (fun r => (VRow.val r).isSome)).reverse) := by
  decide

/-- C4 (amended): when the non-null values of the sorted column are
pairwise distinct, sorting ascending and sorting descending yield
exactly reversed orderings of the rows with non-null values.  With ties
the property fails (see the counterexample): the stable sort keeps equal
rows in original order under both directions. -/
theorem sort_asc_desc_reversed_of_distinct {R V : Type} [LinearOrder V]
    (f : R → Option V) (rows : List R)
    (hnd : rows.Pairwise (fun a b => (f a).isSome → (f b).isSome → f a ≠ f b)) :
    (sortByColumn .asc f rows).filter (fun r => (f r).isSome)
      = ((sortByColumn .desc f rows).filter (fun r => (f r).isSome)).reverse := by
  have hA : ((sortByColumn .asc f rows).filter (fun r => (f r).isSome)).Perm
      (rows.filter (fun r => (f r).isSome)) :=
    (stableSort_perm _ rows).filter _
  have hD : ((sortByColumn .desc f rows).filter (fun r => (f r).isSome)).Perm
      (rows.filter (fun r => (f r).isSome)) :=
    (stableSort_perm _ rows).filter _
  have hAD : ((sortByColumn .asc f rows).filter (fun r => (f r).isSome)).Perm
      (((sortByColumn .desc f rows).filter (fun r => (f r).isSome)).reverse) :=
    hA.trans (hD.symm.trans (List.reverse_perm _).symm)
  have hstrictA := sortByColumn_filter_pairwise_strict .asc f rows hnd
  have hstrictD := sortByColumn_filter_pairwise_strict .desc f rows hnd
  have hstrictRev :
      (((sortByColumn .desc f rows).filter (fun r => (f r).isSome)).reverse).Pairwise
        (fun a b => cellCmp .asc (f a) (f b) < 0) := by
    rw [List.pairwise_reverse]
    refine List.Pairwise.imp_of_mem ?_ hstrictD
    intro a b ha hb h
    have hpa : (f a).isSome := by simpa using (List.mem_filter.mp ha).2
    have hpb : (f b).isSome := by simpa using (List.mem_filter.mp hb).2
    obtain ⟨x, hx⟩ := Option.isSome_iff_exists.mp hpa
    obtain ⟨y, hy⟩ := Option.isSome_iff_exists.mp hpb
    rw [cellCmp_lt_zero, hx, hy] at h
    rw [cellCmp_lt_zero, hy, hx]
    simpa using h
  haveI : IsAntisymm R (fun a b => cellCmp .asc (f a) (f b) < 0) := by
    constructor
    intro a b hab hba
    rw [cellCmp_lt_zero] at hab hba
    rcases ha : f a with _ | x <;> rcases hb : f b with _ | y <;>
      rw [ha, hb] at hab hba <;> simp_all
    exact absurd hba (lt_asymm hab)
  exact List.eq_of_perm_of_sorted hAD hstrictA hstrictRev

theorem sort_asc_desc_reversed_witness :
    ([⟨1, some 3⟩, ⟨2, Option.none⟩, ⟨3, some 1⟩] : List VRow).Pairwise
        (fun a b => (VRow.val a).isSome → (VRow.val b).isSome →
          VRow.val a ≠ VRow.val b) ∧
      (sortByColumn .asc VRow.val [⟨1, some 3⟩, ⟨2, Option.none⟩, ⟨3, some 1⟩]).filter
          (fun r => (VRow.val r).isSome)
        = ((sortByColumn .desc VRow.val
            [⟨1, some 3⟩, ⟨2, Option.none⟩, ⟨3, some 1⟩]).filter
          (fun r => (VRow.val r).isSome)).reverse :=
  ⟨by decide,
   sort_asc_desc_reversed_of_distinct VRow.val
     [⟨1, some 3⟩, ⟨2, Option.none⟩, ⟨3, some 1⟩] (by decide)⟩

theorem insertCmp_congr {R : Type} (cmp1 cmp2 : R → R → Int) (a : R)
    (l : List R) (h : ∀ b ∈ l, (cmp1 a b ≤ 0 ↔ cmp2 a b ≤ 0)) :
    insertCmp cmp1 a l = insertCmp cmp2 a l := by
  induction l with
  | nil => rfl
  | cons b bs ih =>
    have hb := h b (List.mem_cons_self b bs)
    by_cases h1 : cmp1 a b ≤ 0
    · simp [insertCmp, h1, hb.mp h1]
    · have h2 : ¬ cmp2 a b ≤ 0 := fun hc => h1 (hb.mpr hc)
      simp only [insertCmp, h1, h2, if_false]
      rw [ih (fun x hx => h x (List.mem_cons_of_mem b hx))]

/-- Two comparators that agree on which pairs (drawn from the list)
compare less-or-equal produce the same stable sort. -/
theorem stableSort_congr {R : Type} (cmp1 cmp2 : R → R → Int) (l : List R)
    (h : ∀ a ∈ l, ∀ b ∈ l, (cmp1 a b ≤ 0 ↔ cmp2 a b ≤ 0)) :
    stableSort cmp1 l = stableSort cmp2 l := by
  induction l with
  | nil => rfl
  | cons a as ih =>
    have ht : stableSort cmp1 as = stableSort cmp2 as :=
      ih (fun x hx y hy =>
        h x (List.mem_cons_of_mem a hx) y (List.mem_cons_of_mem a hy))
    show insertCmp cmp1 a (stableSort cmp1 as)
        = insertCmp cmp2 a (stableSort cmp2 as)
    rw [ht]
    exact insertCmp_congr cmp1 cmp2 a _
      (fun b hb =>
        h a (List.mem_cons_self a as) b
          (List.mem_cons_of_mem a ((mem_stableSort cmp2 b as).mp hb)))

/-- When either side is null/undefined the code's comparator and the
spec's typed comparator agree outright: both apply the same
direction-invariant nulls-last rule before anything type-specific. -/
theorem comparators_eq_of_nullish (t : ColType) (dir : Dir) (a b : JSVal)
    (h : (isNullish a || isNullish b) = true) :
    jsSortComparator dir a b = specComparator t dir a b := by
  cases ha : isNullish a <;> cases hb : isNullish b <;>
    simp_all [jsSortComparator, specComparator]

theorem num_of_numOrNullish {v : JSVal} (h1 : isNumOrNullish v = true)
    (h2 : isNullish v = false) : ∃ n, v = JSVal.num n := by
  rcases v with _ | _ | n | s | b <;>
    simp_all [isNumOrNullish, isNullish]

theorem jsSortComparator_num_le_iff (dir : Dir) (x y : Int) :
    (jsSortComparator dir (.num x) (.num y) ≤ 0 ↔
      specComparator .num dir (.num x) (.num y) ≤ 0) := by
  rcases dir <;>
      simp only [jsSortComparator, specComparator, isNullish, jsLt, jsNumOf,
        Bool.and_self, Bool.false_and, if_false, decide_eq_true_eq] <;>
    split_ifs <;> omega

/-- C3 counterexample: a `date` column holding the strings
`10/1/2021` and `2/1/2021`.  The code's generic comparator sorts them by
code-unit string order (the October date first), while the spec's typed
comparator parses them as dates and puts the February date first, so the
two orderings differ. -/
theorem sort_typed_comparator_fails :
    stableSort (fun a b : JRow => jsSortComparator .asc a.cell b.cell)
        [⟨1, .str "10/1/2021"⟩, ⟨2, .str "2/1/2021"⟩]
      ≠ stableSort (fun a b : JRow => specComparator .date .asc a.cell b.cell)
        [⟨1, .str "10/1/2021"⟩, ⟨2, .str "2/1/2021"⟩] := by
  decide

/-- C3 (amended): `sort()` does not select a comparator by the column's
declared type; it always applies the generic relational comparison with
the nulls-last rule.  For a `number` column (cells numeric or
null/undefined) this generic comparator orders exactly as the spec's
numeric-subtraction comparator, but `date` cells are compared as raw
strings, not parsed dates (see the counterexample), and string
comparison is by code unit, not locale-aware. -/
theorem sort_number_column_matches_spec (dir : Dir) (rows : List JRow)
    (h : ∀ r ∈ rows, isNumOrNullish r.cell = true) :
    stableSort (fun a b : JRow => jsSortComparator dir a.cell b.cell) rows
      = stableSort (fun a b : JRow => specComparator .num dir a.cell b.cell)
        rows := by
  refine stableSort_congr _ _ rows ?_
  intro a ha b hb
  by_cases hn : (isNullish a.cell || isNullish b.cell) = true
  · rw [comparators_eq_of_nullish .num dir _ _ hn]
  · rw [Bool.or_eq_true, not_or] at hn
    obtain ⟨hna, hnb⟩ := hn
    obtain ⟨x, hx⟩ := num_of_numOrNullish (h a ha)
      (Bool.eq_false_iff.mpr (fun hc => hna hc))
    obtain ⟨y, hy⟩ := num_of_numOrNullish (h b hb)
      (Bool.eq_false_iff.mpr (fun hc => hnb hc))
    rw [hx, hy]
    exact jsSortComparator_num_le_iff dir x y

theorem sort_number_column_matches_spec_witness :
    (∀ r ∈ ([⟨1, .num 2⟩, ⟨2, .null⟩, ⟨3, .num 1⟩] : List JRow),
        isNumOrNullish r.cell = true) ∧
      stableSort (fun a b : JRow => jsSortComparator .asc a.cell b.cell)
          [⟨1, .num 2⟩, ⟨2, .null⟩, ⟨3, .num 1⟩]
        = stableSort (fun a b : JRow => specComparator .num .asc a.cell b.cell)
          [⟨1, .num 2⟩, ⟨2, .null⟩, ⟨3, .num 1⟩] :=
  ⟨by decide,
   sort_number_column_matches_spec .asc [⟨1, .num 2⟩, ⟨2, .null⟩, ⟨3, .num 1⟩]
     (by decide)⟩

/-- C1 counterexample: the claimed invariant `0 <= start <= end <=
viewLength` does not hold for every input of the spec's algorithm.
Scrolled to 4000px with a 400px viewport and 40px rows but only 50 view
rows, the computation yields start 90 and end 50, so `start <= end`
fails (nothing in the algorithm clamps `start` to the view length). -/
theorem computeRange_bounds_fail :
    ¬ ((computeRange 4000 400 40 50).start
        ≤ (computeRange 4000 400 40 50).stop) := by
  decide

/-- C1 (amended): the range formulas are exactly as claimed —
`start = max 0 (visibleStart - visibleCount)` and
`end = min viewLength (visibleStart + 2 * visibleCount)` with
`visibleStart = floor(scrollTop / rowHeight)` and
`visibleCount = ceil(viewportHeight / rowHeight)` — and whenever the
visible band itself lies inside the view
(`visibleStart + visibleCount ≤ viewLength`, which holds in particular
when the scroll offset is within the scrollable surface), the result
satisfies `0 ≤ start ≤ end ≤ viewLength` and contains the visible band.
Without that proviso `start ≤ end` can fail (see the counterexample). -/
theorem computeRange_spec (scrollTop viewportHeight rowHeight viewLength : Nat)
    (_hrh : 0 < rowHeight)
    (hband : scrollTop / rowHeight
        + (viewportHeight + rowHeight - 1) / rowHeight ≤ viewLength) :
    ((computeRange scrollTop viewportHeight rowHeight viewLength).start : Int)
        = max 0 ((scrollTop / rowHeight : Nat)
            - ((viewportHeight + rowHeight - 1) / rowHeight : Nat) : Int) ∧
      (computeRange scrollTop viewportHeight rowHeight viewLength).stop
        = min viewLength (scrollTop / rowHeight
            + 2 * ((viewportHeight + rowHeight - 1) / rowHeight)) ∧
      (computeRange scrollTop viewportHeight rowHeight viewLength).start
        ≤ (computeRange scrollTop viewportHeight rowHeight viewLength).stop ∧
      (computeRange scrollTop viewportHeight rowHeight viewLength).stop
        ≤ viewLength ∧
      (computeRange scrollTop viewportHeight rowHeight viewLength).start
        ≤ scrollTop / rowHeight ∧
      scrollTop / rowHeight + (viewportHeight + rowHeight - 1) / rowHeight
        ≤ (computeRange scrollTop viewportHeight rowHeight viewLength).stop := by
  simp only [computeRange]
  generalize scrollTop / rowHeight = vs at hband ⊢
  generalize (viewportHeight + rowHeight - 1) / rowHeight = vc at hband ⊢
  refine ⟨?_, ?_, ?_, ?_, ?_, ?_⟩ <;> omega

theorem computeRange_spec_witness :
    (0 < 40) ∧ (4000 / 40 + (400 + 40 - 1) / 40 ≤ 100000) ∧
      (computeRange 4000 400 40 100000).start
        ≤ (computeRange 4000 400 40 100000).stop ∧
      computeRange 4000 400 40 100000 = ⟨90, 120⟩ :=
  ⟨by decide, by decide,
   (computeRange_spec 4000 400 40 100000 (by decide) (by decide)).2.2.1,
   by decide⟩

theorem filterCall_preserves (s : TableState) (cid : String) (v : JSVal) :
    (filterCall s cid v).data = s.data ∧
      (filterCall s cid v).columns = s.columns ∧
      (filterCall s cid v).sort = s.sort :=
  ⟨rfl, rfl, rfl⟩

theorem mem_applyColumnFilters (cols : List Column)
    (fs : List (String × JSVal)) (rows : List Row) (r : Row) :
    r ∈ applyColumnFilters cols fs rows ↔
      r ∈ rows ∧ matchesColumnFilters cols fs r = true := by
  induction fs generalizing rows with
  | nil => simp [applyColumnFilters, matchesColumnFilters]
  | cons cf rest ih =>
    rcases hfind : cols.find? (fun c => c.id == cf.1) with _ | col
    · simp only [applyColumnFilters, hfind]
      rw [ih]
      simp [matchesColumnFilters, hfind]
    · simp only [applyColumnFilters, hfind]
      rw [ih]
      simp only [List.mem_filter, matchesColumnFilters, List.all_cons, hfind,
        Bool.and_eq_true]
      tauto

theorem mem_applySortState (s : TableState) (rows : List Row) (r : Row) :
    r ∈ applySortState s rows ↔ r ∈ rows := by
  rcases hs : s.sort with _ | ⟨si, rest⟩
  · simp [applySortState, hs]
  · rcases hfind : s.columns.find? (fun c => c.id == si.column) with _ | col
    · simp [applySortState, hs, hfind]
    · simp [applySortState, hs, hfind, mem_stableSort]

theorem filterCall_rows_eq (s : TableState) (cid : String) (v : JSVal) :
    (filterCall s cid v).rows
      = applySortState s
          (applyColumnFilters s.columns (filterCall s cid v).filters
            (if jsTruthy (filterCall s cid v).globalFilter then
              s.data.filter (fun row =>
                s.columns.any (fun c =>
                  cellMatches
                    (lowerChars (jsChars (filterCall s cid v).globalFilter))
                    row c))
            else s.data)) := rfl

theorem mem_filterCall (s : TableState) (cid : String) (v : JSVal) (r : Row) :
    r ∈ (filterCall s cid v).rows ↔
      r ∈ s.data ∧
        matchesGlobal s.columns (filterCall s cid v).globalFilter r = true ∧
        matchesColumnFilters s.columns (filterCall s cid v).filters r = true := by
  rw [filterCall_rows_eq, mem_applySortState, mem_applyColumnFilters]
  cases htr : jsTruthy (filterCall s cid v).globalFilter
  · simp [matchesGlobal, htr]
  · simp only [matchesGlobal, htr, List.mem_filter, Bool.not_true,
      Bool.false_or, if_true]
    tauto

theorem filterCall_restore (s : TableState) (cid : String) (v : JSVal)
    (hgf : jsTruthy (filterCall s cid v).globalFilter = false)
    (hfs : (filterCall s cid v).filters = [])
    (hsort : s.sort = []) :
    (filterCall s cid v).rows = s.data := by
  rw [filterCall_rows_eq, hfs, hgf]
  simp [applyColumnFilters, applySortState, hsort]

/-- C5: after any non-empty sequence of `filter` calls, a row is in the
current view exactly when it is a raw data row that matches the global
term (vacuously if none is set) and every active per-column filter,
each by case-insensitive substring match on the stringified cell value;
and once the resulting global term is falsy and no column filters
remain, with no active sort, the view is the raw data in original
order. -/
theorem filter_and_semantics (s : TableState) (calls : List (String × JSVal))
    (hne : calls ≠ []) :
    (∀ r, r ∈ (runFilterCalls s calls).rows ↔
        r ∈ s.data ∧
          matchesGlobal s.columns (runFilterCalls s calls).globalFilter r = true ∧
          matchesColumnFilters s.columns (runFilterCalls s calls).filters r
            = true) ∧
      (jsTruthy (runFilterCalls s calls).globalFilter = false →
        (runFilterCalls s calls).filters = [] → s.sort = [] →
        (runFilterCalls s calls).rows = s.data) := by
  induction calls generalizing s with
  | nil => exact absurd rfl hne
  | cons c rest ih =>
    rcases eq_or_ne rest [] with hrest | hrest
    · subst hrest
      exact ⟨fun r => mem_filterCall s c.1 c.2 r,
             fun h1 h2 h3 => filterCall_restore s c.1 c.2 h1 h2 h3⟩
    · have hstep : runFilterCalls s (c :: rest)
          = runFilterCalls (filterCall s c.1 c.2) rest := rfl
      rw [hstep]
      obtain ⟨hd, hc, hs⟩ := filterCall_preserves s c.1 c.2
      have hih := ih (filterCall s c.1 c.2) hrest
      rw [hd, hc, hs] at hih
      exact hih

theorem filter_and_semantics_witness :
    (([(("global" : String), JSVal.str "2")] : List (String × JSVal)) ≠ []) ∧
      ([("id", JSVal.num 3), ("n", JSVal.num 2)]
        ∈ (runFilterCalls demoState [("global", JSVal.str "2")]).rows) :=
  ⟨by decide,
   ((filter_and_semantics demoState [("global", JSVal.str "2")]
      (by decide)).1 _).mpr (by decide)⟩

/-- C6 counterexample: with selectionMode `single`, the public
`select(ids)` stores `new Set(ids)` without consulting the mode, so
selecting two ids leaves a selection of cardinality 2, violating the
claimed invariant over every public operation. -/
theorem single_selection_bound_fails :
    ¬ ((applySelOp { selected := [], selectionMode := "single" }
          (.select ["A", "B"])).selected.length ≤ 1) := by
  decide

/-- C6 (amended): under `single` mode the click handler keeps the
claimed invariant — after any click at most one id is selected, and the
A/B scenario behaves exactly as claimed (A then B leaves only B
selected, clicking B again empties the selection) — but the public
`select(ids)` does not enforce the mode and can produce a larger
selection (see the counterexample). -/
theorem handleSelection_single_invariant (st : SelState) (A B : String)
    (hmode : st.selectionMode = "single") (hA : A ∉ st.selected)
    (hBA : B ≠ A) :
    (∀ rid, (handleSelection st rid).selected.length ≤ 1) ∧
      (handleSelection st A).selected = [A] ∧
      (handleSelection (handleSelection st A) B).selected = [B] ∧
      (handleSelection (handleSelection (handleSelection st A) B) B).selected
        = [] := by
  refine ⟨?_, ?_, ?_, ?_⟩
  · intro rid
    by_cases h : rid ∈ st.selected <;> simp [handleSelection, hmode, h]
  · simp [handleSelection, hmode, hA]
  · simp [handleSelection, hmode, hA, hBA]
  · simp [handleSelection, hmode, hA, hBA]

theorem handleSelection_single_invariant_witness :
    (({ selected := [], selectionMode := "single" } : SelState).selectionMode
        = "single") ∧
      (("A" : String) ∉ ({ selected := [], selectionMode := "single" }
        : SelState).selected) ∧
      (("B" : String) ≠ "A") ∧
      (handleSelection
        (handleSelection { selected := [], selectionMode := "single" } "A")
        "B").selected = ["B"] :=
  ⟨rfl, by decide, by decide,
   (handleSelection_single_invariant
     { selected := [], selectionMode := "single" } "A" "B" rfl (by decide)
     (by decide)).2.2.1⟩

theorem lookupField_setField (row : Row) (k : String) (v : JSVal) :
    lookupField (setField row k v) k = v := by
  induction row with
  | nil => simp [setField, lookupField, List.lookup]
  | cons kv t ih =>
    rcases kv with ⟨k2, v2⟩
    by_cases h : k2 = k
    · subst h
      simp [setField, lookupField, List.lookup]
    · simp only [setField, h, if_false]
      have hbeq : (k == k2) = false := beq_eq_false_iff_ne.mpr (Ne.symm h)
      simpa [lookupField, List.lookup, hbeq] using ih

theorem getCellValue_setField (row : Row) (col : Column) (v : JSVal) :
    getCellValue (setField row (col.field.getD col.id) v) col = v := by
  rcases hf : col.field with _ | f <;>
    simp [getCellValue, hf, lookupField_setField]

theorem findRowById_cons (r : Row) (t : List Row) (rid : String) :
    findRowById (r :: t) rid
      = if getRowId r = rid then some r else findRowById t rid := by
  by_cases h : getRowId r = rid
  · simp [findRowById, List.find?_cons_of_pos, h]
  · simp [findRowById, List.find?_cons_of_neg, h]

theorem findRowById_replaceFirst (rows : List Row) (rid : String)
    (f : Row → Row) (row : Row) (hrow : findRowById rows rid = some row)
    (hid : getRowId (f row) = rid) :
    findRowById (replaceFirst rows rid f) rid = some (f row) := by
  induction rows with
  | nil => simp [findRowById] at hrow
  | cons r t ih =>
    rw [findRowById_cons] at hrow
    by_cases h : getRowId r = rid
    · rw [if_pos h] at hrow
      have hr : row = r := by injection hrow with hrow; exact hrow.symm
      subst hr
      simp only [replaceFirst, h, if_true]
      rw [findRowById_cons, if_pos hid]
    · rw [if_neg h] at hrow
      simp only [replaceFirst, h, if_false]
      rw [findRowById_cons, if_neg h]
      exact ih hrow

theorem startEditingCell_rows (st : EditState) (r c : String) (col : Column) :
    (startEditingCell st r c col).rows = st.rows := by
  rcases h : findRowById st.rows r with _ | row <;> simp [startEditingCell, h]

/-- C7 counterexample: with cell (row 1, column v) in the editing state
and pending input `NEW`, the programmatic `startEdit` on cell
(row 2, column v) switches the editing state to the new cell but leaves
row 1 holding `old`: the in-progress input is silently dropped, not
committed, contradicting the claim for the `startEdit` path. -/
theorem startEdit_drops_pending_edit :
    (startEdit editSt "2" "v").editing
        = some ⟨"2", "v", JSVal.str "x", "x"⟩ ∧
      findRowById (startEdit editSt "2" "v").rows "1"
        = some [("id", JSVal.str "1"), ("v", JSVal.str "old")] := by
  decide

/-- C7 (amended): starting an edit through the click path
(`#handleEditStart`) while another cell is editing first commits the
in-progress input through `#saveEdit`: afterwards the previously edited
row holds the coerced pending input value.  The keyboard Tab path also
saves before moving on, but the programmatic `startEdit` does not — it
overwrites the editing state and discards the pending input (see the
counterexample). -/
theorem handleEditStart_commits_pending (st : EditState) (e : ActiveEdit)
    (r2 c2 : String) (colT colE : Column) (row : Row)
    (hed : st.editing = some e)
    (hdiff : ¬ (e.rowId = r2 ∧ e.columnId = c2))
    (hcolT : st.columns.find? (fun c => c.id == c2) = some colT)
    (hedT : isColumnEditable colT = true)
    (hcolE : st.columns.find? (fun c => c.id == e.columnId) = some colE)
    (hrow : findRowById st.rows e.rowId = some row)
    (horig : getCellValue row colE = e.originalValue)
    (hid : getRowId (setField row (colE.field.getD colE.id)
            (coerceInput colE.type e.inputValue)) = e.rowId) :
    ∃ row2, findRowById (handleEditStart st r2 c2).rows e.rowId = some row2 ∧
      getCellValue row2 colE = coerceInput colE.type e.inputValue := by
  have hstep : handleEditStart st r2 c2
      = startEditingCell (saveEdit st) r2 c2 colT := by
    simp [handleEditStart, hcolT, hedT, hed, hdiff]
  rw [hstep, startEditingCell_rows]
  by_cases hch : coerceInput colE.type e.inputValue = e.originalValue
  · have hrows : (saveEdit st).rows = st.rows := by
      simp [saveEdit, hed, hcolE, hch]
    rw [hrows]
    exact ⟨row, hrow, by rw [horig, hch]⟩
  · have hrows : (saveEdit st).rows
        = replaceFirst st.rows e.rowId
            (fun r => setField r (colE.field.getD colE.id)
              (coerceInput colE.type e.inputValue)) := by
      simp [saveEdit, hed, hcolE, hch, updateCellValue]
    rw [hrows]
    exact ⟨_, findRowById_replaceFirst st.rows e.rowId _ row hrow hid,
      getCellValue_setField row colE _⟩

theorem handleEditStart_commits_pending_witness :
    (editSt.editing = some ⟨"1", "v", JSVal.str "old", "NEW"⟩) ∧
      (∃ row2, findRowById (handleEditStart editSt "2" "v").rows "1"
          = some row2 ∧
        getCellValue row2 { id := "v" } = coerceInput ColType.str "NEW") :=
  ⟨rfl,
   handleEditStart_commits_pending editSt
     ⟨"1", "v", JSVal.str "old", "NEW"⟩
     "2" "v" { id := "v" } { id := "v" }
     [("id", JSVal.str "1"), ("v", JSVal.str "old")]
     rfl (by decide) (by decide) rfl (by decide) (by decide) (by decide)
     (by decide)⟩

theorem emit_of_run_some {Λ D : Type} (ics : List (D → IRes D)) (ls : List Λ)
    (d dfin : D) (h : runInterceptors ics d = some dfin) :
    emit ics ls d = ⟨some dfin, ls.map (fun l => (l, dfin))⟩ := by
  induction ics generalizing d with
  | nil =>
    simp only [runInterceptors, Option.some.injEq] at h
    subst h
    rfl
  | cons f fs ih =>
    cases hf : f d with
    | cancel =>
      simp only [runInterceptors, hf] at h
      exact Option.noConfusion h
    | pass =>
      simp only [runInterceptors, hf] at h
      simpa only [emit, hf] using ih d h
    | replace d2 =>
      simp only [runInterceptors, hf] at h
      simpa only [emit, hf] using ih d2 h

theorem emit_of_run_none {Λ D : Type} (ics : List (D → IRes D)) (ls : List Λ)
    (d : D) (h : runInterceptors ics d = none) :
    emit ics ls d = ⟨none, []⟩ := by
  induction ics generalizing d with
  | nil => simp [runInterceptors] at h
  | cons f fs ih =>
    cases hf : f d with
    | cancel => simp only [emit, hf]
    | pass =>
      simp only [runInterceptors, hf] at h
      simpa only [emit, hf] using ih d h
    | replace d2 =>
      simp only [runInterceptors, hf] at h
      simpa only [emit, hf] using ih d2 h

theorem emit_append {Λ D : Type} (pre : List (D → IRes D)) (f : D → IRes D)
    (post : List (D → IRes D)) (ls : List Λ) (d d' : D)
    (h : runInterceptors pre d = some d') :
    emit (pre ++ f :: post) ls d
      = (match f d' with
         | .cancel => (⟨none, []⟩ : EmitOutcome Λ D)
         | .pass => emit post ls d'
         | .replace d2 => emit post ls d2) := by
  induction pre generalizing d with
  | nil =>
    simp only [runInterceptors, Option.some.injEq] at h
    subst h
    cases hf : f d <;> simp [emit, hf]
  | cons g pre ih =>
    cases hg : g d with
    | cancel =>
      simp only [runInterceptors, hg] at h
      exact Option.noConfusion h
    | pass =>
      simp only [runInterceptors, hg] at h
      simpa only [List.cons_append, emit, hg] using ih d h
    | replace d2 =>
      simp only [runInterceptors, hg] at h
      simpa only [List.cons_append, emit, hg] using ih d2 h

/-- C8: emit runs the interceptors first, in registration order, with
each replacement payload substituted for all subsequent interceptors; a
cancel (the interceptor returning false) aborts immediately, invokes no
listener and makes emit return the sentinel; a pass (returning
undefined) leaves the payload unchanged; and when no interceptor
cancels, every listener is invoked synchronously in registration order
with the final payload, which emit returns. -/
theorem emit_semantics {Λ D : Type} :
    (∀ (pre post : List (D → IRes D)) (f : D → IRes D) (ls : List Λ)
        (d d' : D),
        runInterceptors pre d = some d' →
          emit (pre ++ f :: post) ls d
            = (match f d' with
               | .cancel => ⟨none, []⟩
               | .pass => emit post ls d'
               | .replace d2 => emit post ls d2)) ∧
      (∀ (ics : List (D → IRes D)) (ls : List Λ) (d dfin : D),
        runInterceptors ics d = some dfin →
          emit ics ls d = ⟨some dfin, ls.map (fun l => (l, dfin))⟩) ∧
      (∀ (ics : List (D → IRes D)) (ls : List Λ) (d : D),
        runInterceptors ics d = none → emit ics ls d = ⟨none, []⟩) :=
  ⟨fun pre post f ls d d' h => emit_append pre f post ls d d' h,
   fun ics ls d dfin h => emit_of_run_some ics ls d dfin h,
   fun ics ls d h => emit_of_run_none ics ls d h⟩

theorem emit_semantics_witness :
    runInterceptors demoIcs 0 = some 1 ∧
      emit demoIcs [7, 8] 0 = ⟨some 1, [(7, 1), (8, 1)]⟩ :=
  ⟨rfl, emit_semantics.2.1 demoIcs [7, 8] 0 1 rfl⟩

theorem mem_busOn_self {Λ : Type} [DecidableEq Λ] (ls : List Λ) (cb : Λ) :
    cb ∈ busOn ls cb := by
  by_cases h : cb ∈ ls <;> simp [busOn, h]

theorem nodup_busOn {Λ : Type} [DecidableEq Λ] (ls : List Λ) (cb : Λ)
    (hnd : ls.Nodup) : (busOn ls cb).Nodup := by
  by_cases h : cb ∈ ls
  · simpa [busOn, h] using hnd
  · simp only [busOn, h, if_false]
    exact List.Nodup.append hnd (List.nodup_singleton cb)
      (by simpa [List.disjoint_singleton] using h)

/-- C10: subscribing the same callback to an event twice is subscribing
it once — the listener set is unchanged by the second `on`, the
callback is stored exactly once, an emit invokes each stored listener
once with the payload, and a single `off` removes the callback
entirely. -/
theorem on_duplicate_idempotent {Λ D : Type} [DecidableEq Λ] (ls : List Λ)
    (cb : Λ) (d : D) (hnd : ls.Nodup) :
    busOn (busOn ls cb) cb = busOn ls cb ∧
      (busOn (busOn ls cb) cb).count cb = 1 ∧
      (emit [] (busOn (busOn ls cb) cb) d).calls
        = (busOn ls cb).map (fun l => (l, d)) ∧
      cb ∉ busOff (busOn (busOn ls cb) cb) cb := by
  have h1 : busOn (busOn ls cb) cb = busOn ls cb := by
    show (if cb ∈ busOn ls cb then busOn ls cb else busOn ls cb ++ [cb])
        = busOn ls cb
    rw [if_pos (mem_busOn_self ls cb)]
  have h2 : (busOn ls cb).count cb = 1 :=
    List.count_eq_one_of_mem (nodup_busOn ls cb hnd) (mem_busOn_self ls cb)
  refine ⟨h1, by rw [h1]; exact h2, by rw [h1]; rfl, ?_⟩
  rw [h1]
  intro hmem
  rcases (List.Nodup.mem_erase_iff (nodup_busOn ls cb hnd)).mp hmem with
    ⟨hne, _⟩
  exact hne rfl

theorem on_duplicate_idempotent_witness :
    ([0].Nodup : Prop) ∧
      (busOn (busOn [0] 1) 1 = busOn ([0] : List Nat) 1 ∧
        (busOn (busOn [0] 1) 1).count 1 = 1 ∧
        (emit [] (busOn (busOn [0] 1) 1) (5 : Nat)).calls
          = (busOn ([0] : List Nat) 1).map (fun l => (l, 5)) ∧
        1 ∉ busOff (busOn (busOn [0] 1) 1) 1) :=
  ⟨by decide, on_duplicate_idempotent [0] 1 5 (by decide)⟩

/-- C9 counterexample: registering a plugin whose init throws makes
`register` itself return that error to the caller — the exception is not
caught at the registration boundary, contradicting the claim that it
does not propagate out of `use()`/`register()`. -/
theorem register_init_error_escapes :
    register () ([] : Registry Unit) boomPlugin = .error "boom" := rfl

/-- C9 (amended): there is no try/catch around a plugin's init in
`PluginSystem.register`: an exception thrown by init propagates out of
`register()` (and hence out of `use()`).  The registry is left without
the failed plugin (registration happens only after init returns), so a
later registration against the same registry is unaffected by the
failure. -/
theorem register_propagates_init_error {A I : Type} (api : A)
    (reg : Registry I) (p : PluginDef A I) (f : A → Except String I)
    (e : String)
    (hname : p.name ≠ "") (hdup : reg.lookup p.name = none)
    (hinit : p.init = some f)
    (hdeps : p.dependencies.find? (fun dep => (reg.lookup dep).isNone) = none)
    (herr : f api = .error e) :
    register api reg p = .error e := by
  simp [register, hname, hdup, hinit, hdeps, herr]

theorem register_propagates_init_error_witness :
    (boomPlugin.name ≠ "") ∧
      register () ([("other", ())] : Registry Unit) boomPlugin
        = .error "boom" :=
  ⟨by decide,
   register_propagates_init_error () [("other", ())] boomPlugin
     (fun _ => .error "boom") "boom" (by decide) rfl rfl rfl rfl⟩

end BWDT
